import Mathlib

/-!
Verification of the cherry-go reconciliation engine against its
natural-language specification.

The development shallowly embeds the relevant parts of the source:

* `internal/merge/merge.go` — the three-way merger (`PatchBasedMerge`,
  `semanticLineMerge`, `isBinaryFile`).
* `internal/hash/hash.go` — the content hasher's exclusion predicate and
  `VerifyFileIntegrity`.
* the reconciliation engine (package `git`, file with `SyncMode`,
  `CopyPaths`, `processPath`, `contentDiffersFromRemote`, `mergeDirectory`,
  `mergeFile`, `readRemoteFiles`, `shouldExclude`).
* `internal/git/conflict_branch.go` — `CreateConflictBranch`.

Byte buffers are `List Nat`; file systems, hash maps and snapshots are
association lists keyed by path strings.  External effects that the source
delegates to other processes (the `git apply` / `git merge-file` fallback of
the merger, SHA-256) are parameters of the embedding; everything the source
computes itself is translated directly.
-/

/-- Byte buffer: contents of one file, one `Nat` per byte. -/
abbrev Bytes := List Nat

/-- Association list from path strings to file contents.  Models both an
on-disk tree (`map[string][]byte` reads/writes) and a snapshot map. -/
abbrev FileMap := List (String × Bytes)

/-- Association list from relative path to hex hash string, modelling the
per-file `Files` map of a PathSpec (`map[string]string`). -/
abbrev HashMap := List (String × String)

/-- Write `content` at key `k`: replace the first binding of `k`, or append a
new binding.  Models `os.WriteFile` on a tree / assignment to a Go map. -/
def setFM (m : FileMap) (k : String) (content : Bytes) : FileMap :=
  match m with
  | [] => [(k, content)]
  | (k', c') :: rest =>
      if k' = k then (k, content) :: rest else (k', c') :: setFM rest k content

namespace Merge

/-- Result of a merge, from `merge.MergeResult`: `success` true when there were
no conflicts, `content` the merged bytes, `hasConflict` true when conflicts
could not be auto-resolved. -/
structure MergeResult where
  success : Bool
  content : Bytes
  hasConflict : Bool
deriving DecidableEq, Repr

/-- Go `strings.Split(s, "\n")` on byte buffers: split at each 0x0A byte.
Always returns a non-empty list; splitting the empty buffer yields `[[]]`. -/
def splitNL : Bytes → List Bytes
  | [] => [[]]
  | b :: bs =>
      let rest := splitNL bs
      if b = 10 then [] :: rest
      else
        match rest with
        | r :: rs => (b :: r) :: rs
        | [] => [[b]]

/-- Go `strings.Join(lines, "\n")` on byte buffers. -/
def joinNL : List Bytes → Bytes
  | [] => []
  | [l] => l
  | l :: ls => l ++ 10 :: joinNL ls

/-- Does the buffer end in a newline byte (Go `strings.HasSuffix(s, "\n")`)? -/
def endsInNL (b : Bytes) : Bool :=
  match b.getLast? with
  | some 10 => true
  | _ => false

/-- Embedding of `semanticLineMerge` from `internal/merge/merge.go`.  The Go
function returns `(nil, false)` on a real conflict or an unhandled shape and
`(bytes, true)` on success; here `none` / `some bytes`.  The Go sets
(`baseSet` etc.) contain exactly the non-empty lines of each side, so a
membership test of a non-empty line in the set is a membership test in the
line list. -/
def semanticLineMerge (base local_ remote : Bytes) : Option Bytes :=
  let baseLines := splitNL base
  let localLines := splitNL local_
  let remoteLines := splitNL remote
  let localRemovals := baseLines.filter (fun l => l ≠ [] ∧ l ∉ localLines)
  let remoteRemovals := baseLines.filter (fun l => l ≠ [] ∧ l ∉ remoteLines)
  let localAdditions := localLines.filter (fun l => l ≠ [] ∧ l ∉ baseLines)
  let remoteAdditions := remoteLines.filter (fun l => l ≠ [] ∧ l ∉ baseLines)
  -- conflict detection: both sides removed a common line and both added,
  -- with at least one remote addition that local did not also add
  if localRemovals ≠ [] ∧ remoteRemovals ≠ [] ∧
     (∃ l ∈ remoteRemovals, l ∈ localRemovals) ∧
     localAdditions ≠ [] ∧ remoteAdditions ≠ [] ∧
     (∃ a ∈ remoteAdditions, a ∉ localAdditions) then
    none
  else if localRemovals = [] ∧ localAdditions ≠ [] then
    -- local only added lines: take remote, then append local additions
    let result0 := remoteLines
    let result1 :=
      if result0 ≠ [] ∧ result0.getLast? = some [] then result0.dropLast
      else result0
    let result2 := result1 ++ localAdditions.filter (fun a => a ∉ remoteLines)
    let s := joinNL result2
    some (if ¬ endsInNL s ∧ s ≠ [] then s ++ [10] else s)
  else
    none

/-- Embedding of `PatchBasedMerge` from `internal/merge/merge.go` up to the
point where the source shells out to `git` (`applyPatchWithGit` /
`fallbackToGitMergeFile`): the three equality short-circuits, then
`semanticLineMerge`.  `none` means the source would delegate to the external
git tooling, whose outcome the embedding does not model. -/
def PatchBasedMerge (base local_ remote : Bytes) : Option MergeResult :=
  if base = remote then some ⟨true, local_, false⟩
  else if base = local_ then some ⟨true, remote, false⟩
  else if local_ = remote then some ⟨true, local_, false⟩
  else
    match semanticLineMerge base local_ remote with
    | some r => some ⟨true, r, false⟩
    | none => none

/-- Embedding of `ThreeWayMerge`: `PatchBasedMerge`, with the external-git
outcome supplied by the parameter `ext` wherever the pure part delegates. -/
def ThreeWayMerge (ext : Bytes → Bytes → Bytes → MergeResult)
    (base local_ remote : Bytes) : MergeResult :=
  match PatchBasedMerge base local_ remote with
  | some r => r
  | none => ext base local_ remote

/-- Embedding of `isBinaryFile` from `internal/merge/merge.go`, with the file
represented by its contents: the first 8000 bytes are scanned for a 0x00
byte. -/
def isBinaryFile (content : Bytes) : Bool :=
  (content.take 8000).contains 0

end Merge

/-! Path utilities shared by the hasher and the engine.  They model the Go
standard library calls (`filepath.Match`, `filepath.Base`, `filepath.Dir`,
`filepath.Join`, `strings.Contains`) for the clean, separator-normalised
relative paths the engine manipulates. -/

/-- Fuel-driven core of the glob matcher.  Models Go `filepath.Match` for
patterns built from literal characters, `*` (any run of non-separator
characters) and `?` (one non-separator character); character classes and
backslash escapes do not occur in the patterns this development evaluates. -/
def globMatchAux : Nat → List Char → List Char → Bool
  | 0, _, _ => false
  | _ + 1, [], name => name.isEmpty
  | fuel + 1, '*' :: ps, name =>
      globMatchAux fuel ps name ||
        (match name with
         | [] => false
         | c :: cs => c ≠ '/' && globMatchAux fuel ('*' :: ps) cs)
  | fuel + 1, '?' :: ps, name =>
      (match name with
       | [] => false
       | c :: cs => c ≠ '/' && globMatchAux fuel ps cs)
  | fuel + 1, p :: ps, name =>
      (match name with
       | [] => false
       | c :: cs => p = c && globMatchAux fuel ps cs)

/-- Go `filepath.Match(pattern, name)`.  The fuel bound
`pattern.length + name.length + 1` strictly dominates the recursion depth. -/
def globMatch (pattern name : String) : Bool :=
  globMatchAux (pattern.length + name.length + 1) pattern.toList name.toList

/-- Go `strings.Contains(s, sub)`. -/
def strContains (s sub : String) : Bool :=
  (List.range (s.toList.length + 1)).any fun i =>
    sub.toList.isPrefixOf (s.toList.drop i)

/-- Go `filepath.Base` for clean relative paths: the part after the last
separator. -/
def baseNameStr (s : String) : String :=
  String.mk ((s.toList.reverse.takeWhile (fun c => c ≠ '/')).reverse)

/-- Go `filepath.Dir` for clean relative paths: everything before the last
separator, `"."` when there is none. -/
def dirStr (s : String) : String :=
  match s.toList.reverse.dropWhile (fun c => c ≠ '/') with
  | [] => "."
  | _ :: rest => String.mk rest.reverse

/-- Go `filepath.Join(dir, file)` for clean paths: `dir ++ "/" ++ file`, with
an empty or `"."` directory joining to `file` itself. -/
def pathJoin (dir file : String) : String :=
  if dir = "" ∨ dir = "." then file else dir ++ "/" ++ file

namespace Hasher

/-- Embedding of `(*FileHasher).shouldExclude` from `internal/hash/hash.go`:
a path is excluded when some pattern glob-matches its BASENAME
(`filepath.Match(exclude, filepath.Base(path))`) or is a substring of the
full relative path (`strings.Contains(path, exclude)`). -/
def shouldExclude (path : String) (excludes : List String) : Bool :=
  excludes.any fun e => globMatch e (baseNameStr path) || strContains path e

/-- Embedding of `(*FileHasher).HashDirectory`: hash every file of the walked
tree that `shouldExclude` does not reject, keyed by relative path.  The walk
result is given as the list `tree`; `H` is the SHA-256 hex parameter. -/
def HashDirectory (H : Bytes → String) (excludes : List String)
    (tree : List (String × Bytes)) : HashMap :=
  (tree.filter fun p => ¬ shouldExclude p.1 excludes).map fun p => (p.1, H p.2)

/-- Embedding of `(*FileHasher).VerifyFileIntegrity`: for every expected
`(rel, hash)` pair, report `rel` when the file at `baseDir/rel` is missing
(`Deleted`) or hashes differently (`Modified`).  The destination tree is
keyed by full local path. -/
def VerifyFileIntegrity (H : Bytes → String) (baseDir : String)
    (tree : FileMap) (expected : HashMap) : List String :=
  expected.filterMap fun p =>
    match tree.lookup (pathJoin baseDir p.1) with
    | none => some p.1
    | some c => if H c ≠ p.2 then some p.1 else none

end Hasher

namespace Engine

/-- Embedding of the engine's `SyncMode` (package `git`): the four declared
constants `SyncModeDetect`, `SyncModeMerge`, `SyncModeForce`,
`SyncModeBranch`, in source order. -/
inductive SyncMode where
  | detect
  | merge
  | force
  | branch
deriving DecidableEq, Fintype, Repr

/-- Embedding of the engine's `shouldExclude` (package `git`): a path is
excluded when some pattern glob-matches the path AS PASSED IN
(`filepath.Match(exclude, path)`) or is a substring of it
(`strings.Contains(path, exclude)`). -/
def shouldExclude (path : String) (excludes : List String) : Bool :=
  excludes.any fun e => globMatch e path || strContains path e

/-- Embedding of the directory branch of `contentDiffersFromRemote`: walk the
remote files in order and stop at the first file that is missing locally or
whose local bytes differ.  The walk applies NO exclusion filter.  `remoteTree`
is the walk result of the source path (relative path, bytes); the destination
tree `lt` is keyed by full local path, looked up at `localPath/rel`. -/
def contentDiffersFromRemote (localPath : String) (lt : FileMap) :
    List (String × Bytes) → Bool
  | [] => false
  | (rel, rc) :: rest =>
      match lt.lookup (pathJoin localPath rel) with
      | none => true
      | some lc =>
          if lc ≠ rc then true else contentDiffersFromRemote localPath lt rest

/-- Embedding of the directory branch of `getFileConflicts` (Detect mode):
one `Modified` conflict per remote file that EXISTS locally with different
bytes; locally missing files are skipped (`os.Stat` fails), and no exclusion
filter is applied. -/
def getFileConflicts (localPath : String) (lt : FileMap)
    (remoteTree : List (String × Bytes)) : List String :=
  remoteTree.filterMap fun p =>
    match lt.lookup (pathJoin localPath p.1) with
    | none => none
    | some lc => if lc ≠ p.2 then some p.1 else none

/-- Embedding of `readRemoteFiles` for a directory source: every non-excluded
remote file, KEYED BY THE FULL LOCAL PATH `filepath.Join(localPath, rel)`,
mapped to its REMOTE bytes. -/
def readRemoteFiles (localPath : String) (excludes : List String)
    (remoteTree : List (String × Bytes)) : FileMap :=
  (remoteTree.filter fun p => ¬ shouldExclude p.1 excludes).map
    fun p => (pathJoin localPath p.1, p.2)

/-- Embedding of `readRemoteFiles` for a single-file source: one entry keying
the full local path to the remote bytes. -/
def readRemoteFilesSingle (localPath : String) (remoteContent : Bytes) :
    FileMap :=
  [(localPath, remoteContent)]

/-- Exclusion test of `copyDir` flattened over a relative path: `copyDir`
recurses per directory entry and calls `shouldExclude(entry.Name(), excludes)`
on each component name, so a file is skipped iff ANY component of its
relative path is excluded by name. -/
def copyDirExcluded (rel : String) (excludes : List String) : Bool :=
  (rel.splitOn "/").any fun comp => shouldExclude comp excludes

/-- Embedding of `copyPath`/`copyDir` for a directory source: write each
remote file whose path survives `copyDir`'s per-component exclusion to
`localPath/rel`.  Existing unrelated destination files are left in place. -/
def copyDirTree (localPath : String) (excludes : List String)
    (remoteTree : List (String × Bytes)) (lt : FileMap) : FileMap :=
  remoteTree.foldl
    (fun t p =>
      if copyDirExcluded p.1 excludes then t
      else setFM t (pathJoin localPath p.1) p.2)
    lt

/-- Accumulator of `mergeDirectory`: the hash entries collected so far, the
conflict paths collected so far, the evolving destination tree, and the
`allMerged` flag the source clears whenever it records a conflict. -/
structure DirState where
  hashes : HashMap
  conflicts : List String
  tree : FileMap
  allMerged : Bool
deriving Repr

/-- One file of the `mergeDirectory` loop, for relative path `rel` with
remote bytes `rc`.  Mirrors the branch order of the source: local missing →
copy remote; no base → identical or `no base` conflict; local unchanged →
adopt remote; remote unchanged → keep local; both changed → `ThreeWayMerge`,
writing the clean result or recording a conflict. -/
def mergeDirStep (H : Bytes → String)
    (ext : Bytes → Bytes → Bytes → Merge.MergeResult)
    (localPath : String) (baseSnap : FileMap)
    (st : DirState) (rel : String) (rc : Bytes) : DirState :=
  match st.tree.lookup (pathJoin localPath rel) with
  | none =>
      { st with tree := setFM st.tree (pathJoin localPath rel) rc,
                hashes := st.hashes ++ [(rel, H rc)] }
  | some lc =>
      match baseSnap.lookup rel with
      | none =>
          if lc = rc then { st with hashes := st.hashes ++ [(rel, H rc)] }
          else { st with conflicts := st.conflicts ++ [rel], allMerged := false }
      | some base =>
          if lc = base then
            { st with tree := setFM st.tree (pathJoin localPath rel) rc,
                      hashes := st.hashes ++ [(rel, H rc)] }
          else if rc = base then
            { st with hashes := st.hashes ++ [(rel, H lc)] }
          else if (Merge.ThreeWayMerge ext base lc rc).hasConflict then
            { st with conflicts := st.conflicts ++ [rel], allMerged := false }
          else
            { st with
                tree := setFM st.tree (pathJoin localPath rel)
                  (Merge.ThreeWayMerge ext base lc rc).content,
                hashes := st.hashes ++
                  [(rel, H (Merge.ThreeWayMerge ext base lc rc).content)] }

/-- Loop of `mergeDirectory` over the pre-computed file list. -/
def mergeDirGo (H : Bytes → String)
    (ext : Bytes → Bytes → Bytes → Merge.MergeResult)
    (localPath : String) (baseSnap : FileMap) :
    List (String × Bytes) → DirState → DirState
  | [], st => st
  | (rel, rc) :: rest, st =>
      mergeDirGo H ext localPath baseSnap rest
        (mergeDirStep H ext localPath baseSnap st rel rc)

/-- Embedding of the engine's `mergeDirectory`: collect the walked files that
the engine's `shouldExclude` does not reject, then run the per-file loop.
The base snapshot map `baseSnap` is consulted at the BARE relative path
(`baseContent[relPath]` in the source). -/
def mergeDirectory (H : Bytes → String)
    (ext : Bytes → Bytes → Bytes → Merge.MergeResult)
    (localPath : String) (excludes : List String)
    (remoteTree : List (String × Bytes)) (lt : FileMap)
    (baseSnap : FileMap) : DirState :=
  mergeDirGo H ext localPath baseSnap
    (remoteTree.filter fun p => ¬ shouldExclude p.1 excludes)
    ⟨[], [], lt, true⟩

/-- Embedding of the engine's `mergeFile` for a single-file PathSpec.
Returns `(newHashes, conflicts, tree, updated)`.  The base snapshot is
consulted at `fileName = filepath.Base(sourcePath)`, i.e. the basename of
`include`; reads and writes of the destination use the full `localPath`. -/
def mergeFileRun (H : Bytes → String)
    (ext : Bytes → Bytes → Bytes → Merge.MergeResult)
    (include_ localPath : String) (remoteContent : Bytes)
    (lt : FileMap) (baseSnap : FileMap) :
    HashMap × List String × FileMap × Bool :=
  let fileName := baseNameStr include_
  match lt.lookup localPath with
  | none =>
      ([(fileName, H remoteContent)], [], setFM lt localPath remoteContent, true)
  | some lc =>
      match baseSnap.lookup fileName with
      | none =>
          if lc = remoteContent then ([(fileName, H remoteContent)], [], lt, true)
          else ([], [fileName], lt, false)
      | some base =>
          if lc = base then
            ([(fileName, H remoteContent)], [],
              setFM lt localPath remoteContent, true)
          else if remoteContent = base then
            ([(fileName, H lc)], [], lt, true)
          else
            let m := Merge.ThreeWayMerge ext base lc remoteContent
            if m.hasConflict then ([], [fileName], lt, false)
            else
              ([(fileName, H m.content)], [],
                setFM lt localPath m.content, true)

/-- Per-PathSpec persistent state: the PathSpec's `Files` hash map, the
destination tree (keyed by full local path), and the base-content snapshot
for `(source, include)` (`none` when `HasSnapshot` is false). -/
structure SyncState where
  files : HashMap
  tree : FileMap
  snap : Option FileMap
deriving Repr

/-- What one `CopyPaths` iteration leaves behind: the state after the
iteration, the conflicts reported for the PathSpec, and the `updated` flag
that gates persisting `Files` and saving the snapshot. -/
structure SyncOutcome where
  state : SyncState
  conflicts : List String
  updated : Bool
deriving Repr

/-- One `CopyPaths` iteration for a DIRECTORY PathSpec: `processPath`
(cheap-equality check, then the mode switch) followed by the `CopyPaths`
persistence step (`Files` and snapshot are replaced only when the path result
reports `updated`; the snapshot saved is `readRemoteFiles`, i.e. REMOTE bytes
keyed by full local path). -/
def processPathDir (H : Bytes → String)
    (ext : Bytes → Bytes → Bytes → Merge.MergeResult)
    (mode : SyncMode) (localPath : String) (excludes : List String)
    (remoteTree : List (String × Bytes)) (st : SyncState) : SyncOutcome :=
  if contentDiffersFromRemote localPath st.tree remoteTree = false then
    ⟨st, [], false⟩
  else
    match mode with
    | .detect => ⟨st, getFileConflicts localPath st.tree remoteTree, false⟩
    | .force =>
        ⟨⟨Hasher.HashDirectory H excludes remoteTree,
          copyDirTree localPath excludes remoteTree st.tree,
          some (readRemoteFiles localPath excludes remoteTree)⟩, [], true⟩
    | .merge | .branch =>
        match st.snap with
        | none =>
            ⟨st, Hasher.VerifyFileIntegrity H localPath st.tree st.files, false⟩
        | some baseSnap =>
            let d := mergeDirectory H ext localPath excludes remoteTree st.tree
                baseSnap
            if d.conflicts ≠ [] then
              ⟨⟨st.files, d.tree, st.snap⟩, d.conflicts, false⟩
            else if d.allMerged then
              ⟨⟨d.hashes, d.tree,
                some (readRemoteFiles localPath excludes remoteTree)⟩, [], true⟩
            else ⟨⟨st.files, d.tree, st.snap⟩, [], false⟩

/-- Embedding of the single-file branch of `contentDiffersFromRemote`: the
destination differs when the local file is missing or its bytes differ from
the remote bytes. -/
def localFileDiffers (lt : FileMap) (localPath : String)
    (remoteContent : Bytes) : Bool :=
  match lt.lookup localPath with
  | none => true
  | some lc => lc ≠ remoteContent

/-- One `CopyPaths` iteration for a SINGLE-FILE PathSpec; the per-file hash
key is `filepath.Base` of the source path, the Detect conflict entry is
`filepath.Base(localPath)`, and the no-base fallback verifies hashes against
`filepath.Dir(localPath)`. -/
def processPathFile (H : Bytes → String)
    (ext : Bytes → Bytes → Bytes → Merge.MergeResult)
    (mode : SyncMode) (include_ localPath : String) (remoteContent : Bytes)
    (st : SyncState) : SyncOutcome :=
  if localFileDiffers st.tree localPath remoteContent = false then ⟨st, [], false⟩
  else
    match mode with
    | .detect => ⟨st, [baseNameStr localPath], false⟩
    | .force =>
        ⟨⟨[(baseNameStr include_, H remoteContent)],
          setFM st.tree localPath remoteContent,
          some (readRemoteFilesSingle localPath remoteContent)⟩, [], true⟩
    | .merge | .branch =>
        match st.snap with
        | none =>
            ⟨st, Hasher.VerifyFileIntegrity H (dirStr localPath) st.tree st.files,
              false⟩
        | some baseSnap =>
            match mergeFileRun H ext include_ localPath remoteContent st.tree
                baseSnap with
            | (nh, cs, lt2, upd) =>
                if cs ≠ [] then ⟨⟨st.files, lt2, st.snap⟩, cs, false⟩
                else if upd then
                  ⟨⟨nh, lt2, some (readRemoteFilesSingle localPath remoteContent)⟩,
                    [], true⟩
                else ⟨⟨st.files, lt2, st.snap⟩, [], false⟩

end Engine

namespace ConflictBranch

/-- Environment for `CreateConflictBranch` (`internal/git/conflict_branch.go`):
which git/filesystem operations succeed.  `headBranch` is the branch the
initial (successful, per the claim's hypothesis) HEAD read returned;
`checkoutBackOk` tells whether a checkout of that original branch succeeds,
covering both the best-effort restores on error paths and the final
checkout-back. -/
structure CBEnv where
  headBranch : String
  worktreeOk : Bool
  createOk : Bool
  mkdirOk : String → Bool
  writeOk : String → Bool
  addOk : String → Bool
  commitOk : Bool
  checkoutBackOk : Bool

/-- Best-effort restore used on every error path after the conflict branch
was checked out: `_ = worktree.Checkout(original)` — the result is ignored,
so the tree moves to the original branch only when that checkout succeeds. -/
def restoreBranch (env : CBEnv) (current : String) : String :=
  if env.checkoutBackOk then env.headBranch else current

/-- The per-file loop of `CreateConflictBranch`: create parent directories,
write, stage, in order; `none` on the first failing operation, otherwise the
list of committed files. -/
def writeLoop (env : CBEnv) : List String → Option (List String)
  | [] => some []
  | f :: fs =>
      if env.mkdirOk f ∧ env.writeOk f ∧ env.addOk f then
        (writeLoop env fs).map (f :: ·)
      else none

/-- Embedding of `CreateConflictBranch`: returns the committed files on
success (`none` on error) together with the branch the consumer working tree
is left on.  Mirrors the source's control flow: worktree fetch, create-and-
checkout of `branchName`, the per-file loop, commit, and the final checkout
back to the original branch; every error path after branch creation runs the
best-effort `restoreBranch`. -/
def CreateConflictBranch (env : CBEnv) (branchName : String)
    (files : List String) : Option (List String) × String :=
  if env.worktreeOk = false then (none, env.headBranch)
  else if env.createOk = false then (none, env.headBranch)
  else
    match writeLoop env files with
    | none => (none, restoreBranch env branchName)
    | some committed =>
        if env.commitOk = false then (none, restoreBranch env branchName)
        else if env.checkoutBackOk then (some committed, env.headBranch)
        else (none, branchName)

end ConflictBranch

/-! Concrete instantiations used by closed statements (witnesses and
counterexamples).  The engine treats both as opaque collaborators: SHA-256
and the external git merge tooling live outside the translated source. -/

/-- Stand-in for the SHA-256 hex digest in closed statements: an injective
rendering of the byte list.  The engine only stores and compares these
strings. -/
def sampleHash : Bytes → String :=
  fun b => String.intercalate "-" (b.map toString)

/-- Stand-in for the external git merge tooling in closed statements: reports
a conflict, as `git merge-file` does for fully overlapping single-line
edits.  Closed statements that reach the text merger's pure path never
consult it. -/
def extGitConflict : Bytes → Bytes → Bytes → Merge.MergeResult :=
  fun _ lc _ => ⟨false, lc, true⟩

/-- Embedding of `(*BaseContentManager).GetFileContent`
(`internal/cache/base_content.go`-equivalent source): look one relative path
up in the snapshot saved for `(source, include)`; `none` when no snapshot
exists or the file is absent from it. -/
def snapLookup (snap : Option FileMap) (rel : String) : Option Bytes :=
  snap.bind fun m => m.lookup rel

/-! ## Theorems -/

/-- Claim C3: for all byte buffers, the three-way merge returns `local` clean
when `base = remote`, `remote` clean when `base = local`, and `local` clean
when `local = remote`; these short-circuits are decided before any
line-based merging (the `semanticLineMerge` branch of `PatchBasedMerge`). -/
theorem claim_C3_short_circuits (base local_ remote : Bytes) :
    (base = remote →
      Merge.PatchBasedMerge base local_ remote = some ⟨true, local_, false⟩) ∧
    (base = local_ →
      Merge.PatchBasedMerge base local_ remote = some ⟨true, remote, false⟩) ∧
    (local_ = remote →
      Merge.PatchBasedMerge base local_ remote = some ⟨true, local_, false⟩) := by
  refine ⟨fun h => ?_, fun h => ?_, fun h => ?_⟩
  · simp [Merge.PatchBasedMerge, h]
  · by_cases hbr : base = remote
    · have : local_ = remote := h ▸ hbr
      simp [Merge.PatchBasedMerge, hbr, this]
    · simp [Merge.PatchBasedMerge, hbr, ← h]
  · by_cases hbr : base = remote
    · simp [Merge.PatchBasedMerge, hbr]
    · have hbl : ¬ base = local_ := fun hc => hbr (hc.trans h)
      simp [Merge.PatchBasedMerge, hbr, hbl, h]

/-- Witness for C3: each short-circuit evaluated at concrete buffers. -/
theorem claim_C3_witness :
    Merge.PatchBasedMerge [48] [49] [48] = some ⟨true, [49], false⟩ ∧
    Merge.PatchBasedMerge [48] [48] [50] = some ⟨true, [50], false⟩ ∧
    Merge.PatchBasedMerge [51] [49] [49] = some ⟨true, [49], false⟩ :=
  ⟨(claim_C3_short_circuits [48] [49] [48]).1 rfl,
   (claim_C3_short_circuits [48] [48] [50]).2.1 rfl,
   (claim_C3_short_circuits [51] [49] [49]).2.2 rfl⟩

/-- Counterexample for claim C8: the engine's `SyncMode` enumeration has
exactly four values, so no five pairwise-distinct sync modes exist — in
particular there is no `MarkConflicts` mode. -/
theorem claim_C8_counterexample :
    Fintype.card Engine.SyncMode = 4 ∧
    ¬ ∃ a b c d e : Engine.SyncMode,
        a ≠ b ∧ a ≠ c ∧ a ≠ d ∧ a ≠ e ∧ b ≠ c ∧ b ≠ d ∧ b ≠ e ∧
        c ≠ d ∧ c ≠ e ∧ d ≠ e := by
  constructor
  · decide
  · decide

/-- Claim C8 amended: the engine's set of sync modes is exhaustive and
consists of exactly four modes — Detect, Merge, Force and Branch; no
MarkConflicts mode exists.  (Branch behaves like Merge except that remote
variants of conflicted files are committed to a new conflict branch.) -/
theorem claim_C8_four_modes (m : Engine.SyncMode) :
    m = Engine.SyncMode.detect ∨ m = Engine.SyncMode.merge ∨
    m = Engine.SyncMode.force ∨ m = Engine.SyncMode.branch := by
  cases m
  · exact Or.inl rfl
  · exact Or.inr (Or.inl rfl)
  · exact Or.inr (Or.inr (Or.inl rfl))
  · exact Or.inr (Or.inr (Or.inr rfl))

/-- Claim C4: a Detect run leaves the whole per-PathSpec state — destination
tree bytes, `Files` hash map, and base snapshot — unchanged and never reports
`updated`, for directory and single-file PathSpecs alike; only the conflict
list is produced. -/
theorem claim_C4_detect_purity (H : Bytes → String)
    (ext : Bytes → Bytes → Bytes → Merge.MergeResult)
    (localPath include_ lp2 : String) (excludes : List String)
    (remoteTree : List (String × Bytes)) (remoteContent : Bytes)
    (st st2 : Engine.SyncState) :
    ((Engine.processPathDir H ext Engine.SyncMode.detect localPath excludes
        remoteTree st).state = st ∧
      (Engine.processPathDir H ext Engine.SyncMode.detect localPath excludes
        remoteTree st).updated = false) ∧
    ((Engine.processPathFile H ext Engine.SyncMode.detect include_ lp2
        remoteContent st2).state = st2 ∧
      (Engine.processPathFile H ext Engine.SyncMode.detect include_ lp2
        remoteContent st2).updated = false) := by
  constructor
  · unfold Engine.processPathDir
    split
    · exact ⟨rfl, rfl⟩
    · exact ⟨rfl, rfl⟩
  · unfold Engine.processPathFile
    split
    · exact ⟨rfl, rfl⟩
    · exact ⟨rfl, rfl⟩

/-- Counterexample for claim C5: on the nested path `subdir/file.tmp` with
exclude pattern `*.tmp`, the hasher's predicate (glob against the basename)
excludes the file while the engine's predicate (glob against the full
relative path, where `*` cannot cross `/`) does not — the two predicates are
not the same function, so a file can be hashed yet not materialised or vice
versa. -/
theorem claim_C5_counterexample :
    Hasher.shouldExclude "subdir/file.tmp" ["*.tmp"] = true ∧
    Engine.shouldExclude "subdir/file.tmp" ["*.tmp"] = false ∧
    Hasher.shouldExclude "subdir/file.tmp" ["*.tmp"] ≠
      Engine.shouldExclude "subdir/file.tmp" ["*.tmp"] := by
  refine ⟨by decide, by decide, by decide⟩

/-- Helper: `takeWhile` keeps a list all of whose elements satisfy the
predicate. -/
theorem takeWhile_of_all {α : Type} (q : α → Bool) :
    ∀ l : List α, (∀ a ∈ l, q a = true) → l.takeWhile q = l
  | [], _ => rfl
  | a :: l, h => by
      have ha := h a (List.mem_cons_self a l)
      have hl := takeWhile_of_all q l (fun b hb => h b (List.mem_cons_of_mem a hb))
      simp [List.takeWhile_cons, ha, hl]

/-- Helper: on a path without a separator, `filepath.Base` is the path
itself. -/
theorem baseNameStr_eq_self (p : String) (h : '/' ∉ p.toList) :
    baseNameStr p = p := by
  unfold baseNameStr
  have h1 : p.toList.reverse.takeWhile (fun c => decide (c ≠ '/')) =
      p.toList.reverse := by
    apply takeWhile_of_all
    intro a ha
    have : a ∈ p.toList := List.mem_reverse.mp ha
    simp only [decide_eq_true_eq]
    intro hEq
    exact h (hEq ▸ this)
  rw [h1, List.reverse_reverse]
  cases p
  rfl

/-- Claim C5 amended: both exclusion predicates are the union of a glob match
and a substring match of the full relative path, but the hasher glob-matches
the BASENAME while the engine (copying, merging, tree-reading) glob-matches
the full relative path; the two predicates therefore coincide exactly on
paths without a directory separator, and can disagree on nested paths. -/
theorem claim_C5_agree_on_flat_paths (path : String) (excludes : List String)
    (h : '/' ∉ path.toList) :
    Hasher.shouldExclude path excludes = Engine.shouldExclude path excludes := by
  unfold Hasher.shouldExclude Engine.shouldExclude
  simp only [baseNameStr_eq_self path h]

/-- Witness for the amended C5 at a concrete flat path. -/
theorem claim_C5_witness :
    ('/' ∉ "file.tmp".toList) ∧
    Hasher.shouldExclude "file.tmp" ["*.tmp"] =
      Engine.shouldExclude "file.tmp" ["*.tmp"] :=
  ⟨by decide, claim_C5_agree_on_flat_paths "file.tmp" ["*.tmp"] (by decide)⟩

/-- Helper: if some walked remote file is locally missing or locally
different, the directory cheap-equality check reports a difference. -/
theorem contentDiffers_of_mem (localPath : String) (lt : FileMap)
    (remoteTree : List (String × Bytes)) (rel : String) (rc : Bytes)
    (hmem : (rel, rc) ∈ remoteTree)
    (hdiff : ∀ lc, lt.lookup (pathJoin localPath rel) = some lc → lc ≠ rc) :
    Engine.contentDiffersFromRemote localPath lt remoteTree = true := by
  induction remoteTree with
  | nil => cases hmem
  | cons head rest ih =>
      obtain ⟨r1, c1⟩ := head
      rcases List.mem_cons.mp hmem with heq | hmem2
      · obtain ⟨h1, h2⟩ := Prod.mk.injEq .. ▸ heq
        subst h1; subst h2
        unfold Engine.contentDiffersFromRemote
        cases hl : lt.lookup (pathJoin localPath rel)
        · rfl
        · next lc => simp [hdiff lc hl]
      · unfold Engine.contentDiffersFromRemote
        cases hl : lt.lookup (pathJoin localPath r1)
        · rfl
        · next lc =>
            by_cases hlc : lc ≠ c1
            · simp [hlc]
            · simp [hlc]
              exact ih hmem2

/-- Claim C7 corrected (amended): the directory cheap-equality check walks
the remote source tree WITHOUT applying the PathSpec's exclude patterns — a
differing file triggers divergence handling even when the engine's exclusion
predicate rejects it — and it stops at the first difference found: the result
on a list headed by a differing file is `true` for every tail. -/
theorem claim_C7_no_excludes_first_difference
    (localPath : String) (lt : FileMap) (excludes : List String)
    (remoteTree rest : List (String × Bytes)) (rel : String) (rc : Bytes)
    (hmem : (rel, rc) ∈ remoteTree)
    (hexcl : Engine.shouldExclude rel excludes = true)
    (hdiff : ∀ lc, lt.lookup (pathJoin localPath rel) = some lc → lc ≠ rc) :
    Engine.contentDiffersFromRemote localPath lt remoteTree = true ∧
    Engine.contentDiffersFromRemote localPath lt ((rel, rc) :: rest) = true :=
  ⟨contentDiffers_of_mem localPath lt remoteTree rel rc hmem hdiff,
   contentDiffers_of_mem localPath lt ((rel, rc) :: rest) rel rc
     (List.mem_cons_self _ _) hdiff⟩

/-- Witness for the amended C7: a file excluded by `*.tmp` that differs makes
the check report a difference, whatever follows it in the walk. -/
theorem claim_C7_witness :
    (("a.tmp", ([49] : Bytes)) ∈ [("a.tmp", ([49] : Bytes))]) ∧
    Engine.shouldExclude "a.tmp" ["*.tmp"] = true ∧
    Engine.contentDiffersFromRemote "dst" [("dst/a.tmp", [50])]
      [("a.tmp", [49])] = true ∧
    Engine.contentDiffersFromRemote "dst" [("dst/a.tmp", [50])]
      [("a.tmp", [49]), ("b.txt", [51])] = true := by
  refine ⟨by decide, by decide, ?_, ?_⟩
  · exact (claim_C7_no_excludes_first_difference "dst" [("dst/a.tmp", [50])]
      ["*.tmp"] [("a.tmp", [49])] [] "a.tmp" [49] (by decide) (by decide)
      (by decide)).1
  · exact (claim_C7_no_excludes_first_difference "dst" [("dst/a.tmp", [50])]
      ["*.tmp"] [("a.tmp", [49])] [("b.txt", [51])] "a.tmp" [49] (by decide)
      (by decide) (by decide)).2

/-- Counterexample for claim C7: with exclude pattern `*.tmp`, a remote tree
whose only file `a.tmp` is excluded and differs locally still makes the
cheap-equality check report a difference, and a Detect run then reports that
excluded file as a conflict — divergence handling is triggered by an
excluded file, so the check does not apply the exclude patterns. -/
theorem claim_C7_counterexample :
    Engine.shouldExclude "a.tmp" ["*.tmp"] = true ∧
    Engine.contentDiffersFromRemote "dst" [("dst/a.tmp", [50])]
      [("a.tmp", [49])] = true ∧
    (Engine.processPathDir sampleHash extGitConflict Engine.SyncMode.detect
      "dst" ["*.tmp"] [("a.tmp", [49])]
      ⟨[], [("dst/a.tmp", [50])], none⟩).conflicts = ["a.tmp"] := by
  refine ⟨by decide, by decide, by decide⟩

/-- Claim C2: under Merge mode, if any file of a PathSpec produces a conflict
during reconciliation, the PathSpec's `Files` hash map after the run is
exactly its state before the run — no new hashes are persisted, not even for
files of the same PathSpec that merged cleanly or were newly copied.  Holds
for directory and single-file PathSpecs, for every hasher and every external
merge outcome. -/
theorem claim_C2_no_half_updates (H : Bytes → String)
    (ext : Bytes → Bytes → Bytes → Merge.MergeResult)
    (localPath include_ lp2 : String) (excludes : List String)
    (remoteTree : List (String × Bytes)) (rc : Bytes)
    (st st2 : Engine.SyncState) :
    ((Engine.processPathDir H ext Engine.SyncMode.merge localPath excludes
        remoteTree st).conflicts ≠ [] →
      (Engine.processPathDir H ext Engine.SyncMode.merge localPath excludes
        remoteTree st).state.files = st.files) ∧
    ((Engine.processPathFile H ext Engine.SyncMode.merge include_ lp2 rc
        st2).conflicts ≠ [] →
      (Engine.processPathFile H ext Engine.SyncMode.merge include_ lp2 rc
        st2).state.files = st2.files) := by
  constructor
  · unfold Engine.processPathDir
    split
    · intro h; exact absurd rfl h
    · dsimp only
      cases hs : st.snap with
      | none => intro h; rfl
      | some baseSnap =>
          dsimp only
          split
          · intro h; rfl
          · split
            · intro h; exact absurd rfl h
            · intro h; rfl
  · unfold Engine.processPathFile
    split
    · intro h; exact absurd rfl h
    · dsimp only
      cases hs : st2.snap with
      | none => intro h; rfl
      | some baseSnap =>
          dsimp only
          rcases hm : Engine.mergeFileRun H ext include_ lp2 rc st2.tree
              baseSnap with ⟨nh, cs, lt2, upd⟩
          simp only [hm]
          split
          · intro h; rfl
          · split
            · intro h; exact absurd rfl h
            · intro h; rfl

/-- Witness for C2: a single-file PathSpec whose merge conflicts (all three
versions touch the same single line) keeps its `Files` map. -/
theorem claim_C2_witness :
    (Engine.processPathFile sampleHash extGitConflict Engine.SyncMode.merge
        "f" "f" [50] ⟨[("f", "h0")], [("f", [49])], some [("f", [48])]⟩
      ).conflicts ≠ [] ∧
    (Engine.processPathFile sampleHash extGitConflict Engine.SyncMode.merge
        "f" "f" [50] ⟨[("f", "h0")], [("f", [49])], some [("f", [48])]⟩
      ).state.files = [("f", "h0")] :=
  ⟨by decide,
   (claim_C2_no_half_updates sampleHash extGitConflict "dst" "f" "f" []
      [] [50] ⟨[], [], none⟩
      ⟨[("f", "h0")], [("f", [49])], some [("f", [48])]⟩).2 (by decide)⟩

/-- Counterexample for claim C1: a single-file PathSpec (`include = "f"`,
`local_path = "f"`) with base `[48]`, local `[49]`, remote `[48]` syncs
successfully under Merge — the engine reports `updated` and persists the
`Files` map with the hash of the LOCAL bytes (decision KeptLocal, since
remote equals base) — yet the snapshot saved afterwards holds the REMOTE
bytes `[48]` for `"f"` while the destination holds the local bytes `[49]`:
the claimed equality between snapshot and destination fails. -/
theorem claim_C1_counterexample :
    (Engine.processPathFile sampleHash extGitConflict Engine.SyncMode.merge
        "f" "f" [48] ⟨[], [("f", [49])], some [("f", [48])]⟩).updated = true ∧
    (Engine.processPathFile sampleHash extGitConflict Engine.SyncMode.merge
        "f" "f" [48] ⟨[], [("f", [49])], some [("f", [48])]⟩).state.files =
      [("f", sampleHash [49])] ∧
    snapLookup (Engine.processPathFile sampleHash extGitConflict
        Engine.SyncMode.merge "f" "f" [48]
        ⟨[], [("f", [49])], some [("f", [48])]⟩).state.snap "f" = some [48] ∧
    (Engine.processPathFile sampleHash extGitConflict Engine.SyncMode.merge
        "f" "f" [48] ⟨[], [("f", [49])], some [("f", [48])]⟩).state.tree.lookup
      "f" = some [49] ∧
    snapLookup (Engine.processPathFile sampleHash extGitConflict
        Engine.SyncMode.merge "f" "f" [48]
        ⟨[], [("f", [49])], some [("f", [48])]⟩).state.snap "f" ≠
      (Engine.processPathFile sampleHash extGitConflict Engine.SyncMode.merge
        "f" "f" [48] ⟨[], [("f", [49])], some [("f", [48])]⟩).state.tree.lookup
        "f" := by
  refine ⟨by decide, by decide, by decide, by decide, by decide⟩

/-- Claim C1 amended: whenever a PathSpec sync completes successfully (the
engine reports `updated` and persists the `Files` map), the snapshot saved
for `(source, include)` is `readRemoteFiles` — the REMOTE bytes of every
non-excluded file, keyed by the full destination path.  The snapshot
therefore equals the destination bytes only for files whose decision adopted
remote content; for `KeptLocal` (and `Merged`) decisions the destination
holds local (or merged) bytes while the snapshot holds remote bytes. -/
theorem claim_C1_snapshot_holds_remote_bytes (H : Bytes → String)
    (ext : Bytes → Bytes → Bytes → Merge.MergeResult) (mode : Engine.SyncMode)
    (localPath include_ lp2 : String) (excludes : List String)
    (remoteTree : List (String × Bytes)) (rc : Bytes)
    (st st2 : Engine.SyncState) :
    ((Engine.processPathDir H ext mode localPath excludes remoteTree
        st).updated = true →
      (Engine.processPathDir H ext mode localPath excludes remoteTree
        st).state.snap =
        some (Engine.readRemoteFiles localPath excludes remoteTree)) ∧
    ((Engine.processPathFile H ext mode include_ lp2 rc st2).updated = true →
      (Engine.processPathFile H ext mode include_ lp2 rc st2).state.snap =
        some (Engine.readRemoteFilesSingle lp2 rc)) := by
  constructor
  · unfold Engine.processPathDir
    split
    · intro h; simp at h
    · cases mode with
      | detect => intro h; simp at h
      | force => intro _; rfl
      | merge =>
          dsimp only
          cases hs : st.snap with
          | none => intro h; simp at h
          | some baseSnap =>
              dsimp only
              split
              · intro h; simp at h
              · split
                · intro _; rfl
                · intro h; simp at h
      | branch =>
          dsimp only
          cases hs : st.snap with
          | none => intro h; simp at h
          | some baseSnap =>
              dsimp only
              split
              · intro h; simp at h
              · split
                · intro _; rfl
                · intro h; simp at h
  · unfold Engine.processPathFile
    split
    · intro h; simp at h
    · cases mode with
      | detect => intro h; simp at h
      | force => intro _; rfl
      | merge =>
          dsimp only
          cases hs : st2.snap with
          | none => intro h; simp at h
          | some baseSnap =>
              dsimp only
              rcases hm : Engine.mergeFileRun H ext include_ lp2 rc st2.tree
                  baseSnap with ⟨nh, cs, lt2, upd⟩
              simp only [hm]
              split
              · intro h; simp at h
              · split
                · intro _; rfl
                · intro h; simp at h
      | branch =>
          dsimp only
          cases hs : st2.snap with
          | none => intro h; simp at h
          | some baseSnap =>
              dsimp only
              rcases hm : Engine.mergeFileRun H ext include_ lp2 rc st2.tree
                  baseSnap with ⟨nh, cs, lt2, upd⟩
              simp only [hm]
              split
              · intro h; simp at h
              · split
                · intro _; rfl
                · intro h; simp at h

/-- Witness for the amended C1: a successful KeptLocal sync saves the remote
bytes, keyed by the destination path. -/
theorem claim_C1_witness :
    (Engine.processPathFile sampleHash extGitConflict Engine.SyncMode.merge
        "g" "g" [48] ⟨[], [("g", [49])], some [("g", [48])]⟩).updated = true ∧
    (Engine.processPathFile sampleHash extGitConflict Engine.SyncMode.merge
        "g" "g" [48] ⟨[], [("g", [49])], some [("g", [48])]⟩).state.snap =
      some [("g", [48])] :=
  ⟨by decide,
   (claim_C1_snapshot_holds_remote_bytes sampleHash extGitConflict
      Engine.SyncMode.merge "dst" "g" "g" [] [] [48] ⟨[], [], none⟩
      ⟨[], [("g", [49])], some [("g", [48])]⟩).2 (by decide)⟩

/-- Counterexample for claim C6: three pairwise-different BINARY buffers
(each contains a 0x00 byte in its first 8000 bytes) are fed to the text
merger by the engine's reconciliation and merged CLEANLY — local differs from
remote, yet the outcome is a written merged file, not a binary conflict.
Base is "\0a\n", local appends the line "\0b", remote rewrites the first
line to "\0c": `semanticLineMerge` takes remote and re-appends the local
addition.  The binary check of `merge.MergeDirectory` is never consulted on
this path. -/
theorem claim_C6_counterexample :
    Merge.isBinaryFile [0, 97, 10] = true ∧
    Merge.isBinaryFile [0, 97, 10, 0, 98, 10] = true ∧
    Merge.isBinaryFile [0, 99, 10] = true ∧
    ([0, 97, 10, 0, 98, 10] : Bytes) ≠ [0, 99, 10] ∧
    Merge.PatchBasedMerge [0, 97, 10] [0, 97, 10, 0, 98, 10] [0, 99, 10] =
      some ⟨true, [0, 99, 10, 0, 98, 10], false⟩ ∧
    (Engine.processPathFile sampleHash extGitConflict Engine.SyncMode.merge
        "f" "f" [0, 99, 10]
        ⟨[], [("f", [0, 97, 10, 0, 98, 10])], some [("f", [0, 97, 10])]⟩
      ).conflicts = [] ∧
    (Engine.processPathFile sampleHash extGitConflict Engine.SyncMode.merge
        "f" "f" [0, 99, 10]
        ⟨[], [("f", [0, 97, 10, 0, 98, 10])], some [("f", [0, 97, 10])]⟩
      ).state.tree.lookup "f" = some [0, 99, 10, 0, 98, 10] := by
  refine ⟨by decide, by decide, by decide, by decide, by decide, by decide,
    by decide⟩

/-- Claim C6 amended: a file is treated as binary iff one of its first 8000
bytes is 0x00 — but that check belongs to `merge.MergeDirectory`, which the
sync engine never invokes.  The engine's own per-file reconciliation applies
the three-way text merger uniformly: whenever local and remote both changed
relative to the base, the recorded outcome is exactly the text merger's
verdict, with no binary special-casing. -/
theorem claim_C6_binary_not_special_cased :
    (∀ content : Bytes, Merge.isBinaryFile content = true ↔
        0 ∈ content.take 8000) ∧
    (∀ (H : Bytes → String) (ext : Bytes → Bytes → Bytes → Merge.MergeResult)
        (include_ lp : String) (rc : Bytes) (lt baseSnap : FileMap)
        (b lc : Bytes),
      lt.lookup lp = some lc →
      baseSnap.lookup (baseNameStr include_) = some b →
      lc ≠ b → rc ≠ b →
      Engine.mergeFileRun H ext include_ lp rc lt baseSnap =
        (if (Merge.ThreeWayMerge ext b lc rc).hasConflict then
          ([], [baseNameStr include_], lt, false)
        else
          ([(baseNameStr include_, H (Merge.ThreeWayMerge ext b lc rc).content)],
            [], setFM lt lp (Merge.ThreeWayMerge ext b lc rc).content, true))) := by
  constructor
  · intro content
    simp [Merge.isBinaryFile, List.elem_iff]
  · intro H ext include_ lp rc lt baseSnap b lc h1 h2 h3 h4
    unfold Engine.mergeFileRun
    simp only [h1, h2, h3, h4, if_false]

/-- Witness for the amended C6: the binary triple of the counterexample
reaches the text merger and merges cleanly. -/
theorem claim_C6_witness :
    (([("f", [0, 97, 10, 0, 98, 10])] : FileMap).lookup "f" =
        some [0, 97, 10, 0, 98, 10]) ∧
    (([("f", [0, 97, 10])] : FileMap).lookup (baseNameStr "f") =
        some [0, 97, 10]) ∧
    Engine.mergeFileRun sampleHash extGitConflict "f" "f" [0, 99, 10]
        [("f", [0, 97, 10, 0, 98, 10])] [("f", [0, 97, 10])] =
      (if (Merge.ThreeWayMerge extGitConflict [0, 97, 10]
            [0, 97, 10, 0, 98, 10] [0, 99, 10]).hasConflict then
        ([], [baseNameStr "f"], [("f", [0, 97, 10, 0, 98, 10])], false)
      else
        ([(baseNameStr "f",
            sampleHash (Merge.ThreeWayMerge extGitConflict [0, 97, 10]
              [0, 97, 10, 0, 98, 10] [0, 99, 10]).content)], [],
          setFM [("f", [0, 97, 10, 0, 98, 10])] "f"
            (Merge.ThreeWayMerge extGitConflict [0, 97, 10]
              [0, 97, 10, 0, 98, 10] [0, 99, 10]).content, true)) :=
  ⟨by decide, by decide,
   (claim_C6_binary_not_special_cased.2 sampleHash extGitConflict "f" "f"
      [0, 99, 10] [("f", [0, 97, 10, 0, 98, 10])] [("f", [0, 97, 10])]
      [0, 97, 10] [0, 97, 10, 0, 98, 10] (by decide) (by decide) (by decide)
      (by decide))⟩

/-- Claim C9: whenever the initial HEAD read succeeded and checking the
original branch back out succeeds when attempted, `CreateConflictBranch`
leaves the consumer working tree on the original branch at return — on
success and on every failure path (worktree fetch, branch creation, any
per-file mkdir/write/stage failure, commit failure), since every error path
after branch creation attempts the restore checkout before surfacing the
error. -/
theorem claim_C9_returns_to_original (env : ConflictBranch.CBEnv)
    (branchName : String) (files : List String)
    (h : env.checkoutBackOk = true) :
    (ConflictBranch.CreateConflictBranch env branchName files).2 =
      env.headBranch := by
  unfold ConflictBranch.CreateConflictBranch
  split
  · rfl
  · split
    · rfl
    · cases hw : ConflictBranch.writeLoop env files with
      | none => simp [ConflictBranch.restoreBranch, h]
      | some committed =>
          dsimp only
          split
          · simp [ConflictBranch.restoreBranch, h]
          · rfl

/-- Witness for C9: a run whose staging step fails on the first file still
returns with the tree on the original branch `main`. -/
theorem claim_C9_witness :
    ((⟨"main", true, true, fun _ => true, fun _ => true, fun _ => false,
        true, true⟩ : ConflictBranch.CBEnv)).checkoutBackOk = true ∧
    (ConflictBranch.CreateConflictBranch
        ⟨"main", true, true, fun _ => true, fun _ => true, fun _ => false,
          true, true⟩ "cherry-go/sync/src-20240101-000000" ["x"]).2 =
      "main" :=
  ⟨rfl,
   claim_C9_returns_to_original
     ⟨"main", true, true, fun _ => true, fun _ => true, fun _ => false,
       true, true⟩ "cherry-go/sync/src-20240101-000000" ["x"] rfl⟩

/-- Helper: association-list lookup misses when no key equals the probe. -/
theorem lookup_eq_none_of_ne {β : Type} :
    ∀ (m : List (String × β)) (k : String),
      (∀ p ∈ m, p.1 ≠ k) → m.lookup k = none
  | [], _, _ => rfl
  | (a, b) :: rest, k, h => by
      have ha : a ≠ k := h (a, b) (List.mem_cons_self _ _)
      have hr := lookup_eq_none_of_ne rest k
        (fun p hp => h p (List.mem_cons_of_mem _ hp))
      have hka : (k == a) = false :=
        beq_eq_false_iff_ne.mpr (fun hEq => ha hEq.symm)
      simp [List.lookup, hka, hr]

/-- Helper: writing one key leaves lookups of other keys unchanged. -/
theorem setFM_lookup_ne :
    ∀ (m : FileMap) (k k' : String) (v : Bytes), k' ≠ k →
      (setFM m k v).lookup k' = m.lookup k'
  | [], k, k', v, h => by
      have hk : (k' == k) = false := beq_eq_false_iff_ne.mpr h
      simp [setFM, List.lookup, hk]
  | (a, b) :: rest, k, k', v, h => by
      by_cases hak : a = k
      · subst hak
        have hk : (k' == a) = false := beq_eq_false_iff_ne.mpr h
        simp [setFM, List.lookup, hk]
      · have ih := setFM_lookup_ne rest k k' v h
        by_cases hk'a : k' = a
        · subst hk'a
          simp [setFM, hak, List.lookup]
        · have hk : (k' == a) = false := beq_eq_false_iff_ne.mpr hk'a
          simp [setFM, hak, List.lookup, hk, ih]

/-- Helper: one `mergeDirectory` step either keeps the conflict list or
appends exactly the processed relative path. -/
theorem mergeDirStep_conflicts_eq (H : Bytes → String)
    (ext : Bytes → Bytes → Bytes → Merge.MergeResult) (lp : String)
    (bs : FileMap) (st : Engine.DirState) (rel : String) (rc : Bytes) :
    (Engine.mergeDirStep H ext lp bs st rel rc).conflicts = st.conflicts ∨
    (Engine.mergeDirStep H ext lp bs st rel rc).conflicts =
      st.conflicts ++ [rel] := by
  unfold Engine.mergeDirStep
  repeat' split
  all_goals first
  | exact Or.inl rfl
  | exact Or.inr rfl

/-- Helper: conflicts already collected survive the rest of the
`mergeDirectory` loop. -/
theorem mergeDirGo_conflicts_mono (H : Bytes → String)
    (ext : Bytes → Bytes → Bytes → Merge.MergeResult) (lp : String)
    (bs : FileMap) :
    ∀ (files : List (String × Bytes)) (st : Engine.DirState) (x : String),
      x ∈ st.conflicts →
      x ∈ (Engine.mergeDirGo H ext lp bs files st).conflicts
  | [], _, _, hx => hx
  | (r, c) :: rest, st, x, hx => by
      apply mergeDirGo_conflicts_mono H ext lp bs rest _ x
      rcases mergeDirStep_conflicts_eq H ext lp bs st r c with h | h
      · rw [h]; exact hx
      · rw [h]; exact List.mem_append_left _ hx

/-- Helper: one `mergeDirectory` step never touches destination entries other
than the one it processes. -/
theorem mergeDirStep_tree_lookup_ne (H : Bytes → String)
    (ext : Bytes → Bytes → Bytes → Merge.MergeResult) (lp : String)
    (bs : FileMap) (st : Engine.DirState) (rel : String) (rc : Bytes)
    (k : String) (h : k ≠ pathJoin lp rel) :
    (Engine.mergeDirStep H ext lp bs st rel rc).tree.lookup k =
      st.tree.lookup k := by
  unfold Engine.mergeDirStep
  repeat' split
  all_goals first
  | rfl
  | exact setFM_lookup_ne st.tree (pathJoin lp rel) k _ h

/-- Helper: for a destination prefix that is neither empty nor `"."`,
`filepath.Join` is plain concatenation with a separator. -/
theorem pathJoin_eq (lp rel : String) (h1 : lp ≠ "") (h2 : lp ≠ ".") :
    pathJoin lp rel = lp ++ "/" ++ rel := by
  unfold pathJoin
  rw [if_neg]
  rintro (h | h)
  · exact h1 h
  · exact h2 h

/-- Helper: joining a non-trivial destination prefix strictly lengthens a
path, so the joined key never equals the bare relative path. -/
theorem pathJoin_ne_self (lp rel : String) (h1 : lp ≠ "") (h2 : lp ≠ ".") :
    pathJoin lp rel ≠ rel := by
  rw [pathJoin_eq lp rel h1 h2]
  intro hEq
  have hlen := congrArg String.length hEq
  rw [String.length_append, String.length_append] at hlen
  have hsep : ("/" : String).length = 1 := rfl
  omega

/-- Helper: joining with a fixed non-trivial prefix is injective on the
relative path. -/
theorem pathJoin_right_inj (lp a b : String) (h1 : lp ≠ "") (h2 : lp ≠ ".")
    (h : pathJoin lp a = pathJoin lp b) : a = b := by
  rw [pathJoin_eq lp a h1 h2, pathJoin_eq lp b h1 h2] at h
  have hd := congrArg String.data h
  rw [String.data_append, String.data_append, String.data_append,
    String.data_append] at hd
  exact String.ext (List.append_cancel_left hd)

/-- Helper: a walked file whose local content exists and differs, and whose
base lookup misses, ends up in the conflict list of the `mergeDirectory`
loop (given distinct walked paths, so that the writes of other files do not
touch its destination entry). -/
theorem mergeDirGo_no_base_conflict (H : Bytes → String)
    (ext : Bytes → Bytes → Bytes → Merge.MergeResult) (lp : String)
    (bs : FileMap) (h1 : lp ≠ "") (h2 : lp ≠ ".") :
    ∀ (files : List (String × Bytes)) (st : Engine.DirState) (rel : String)
      (rc lc : Bytes),
      (rel, rc) ∈ files → (files.map Prod.fst).Nodup →
      st.tree.lookup (pathJoin lp rel) = some lc → lc ≠ rc →
      bs.lookup rel = none →
      rel ∈ (Engine.mergeDirGo H ext lp bs files st).conflicts := by
  intro files
  induction files with
  | nil => intro st rel rc lc hmem; cases hmem
  | cons head rest ih =>
      intro st rel rc lc hmem hnd hlook hne hbs
      obtain ⟨r1, c1⟩ := head
      rcases List.mem_cons.mp hmem with heq | hmem2
      · injection heq with hr hc
        subst hr; subst hc
        unfold Engine.mergeDirGo
        apply mergeDirGo_conflicts_mono
        have hst : (Engine.mergeDirStep H ext lp bs st rel rc).conflicts =
            st.conflicts ++ [rel] := by
          unfold Engine.mergeDirStep
          simp [hlook, hbs, hne]
        rw [hst]
        exact List.mem_append_right _ (List.mem_singleton.mpr rfl)
      · have hnd1 : (r1 :: rest.map Prod.fst).Nodup := by simpa using hnd
        have hnd2 := List.nodup_cons.mp hnd1
        have hr1ne : r1 ≠ rel := by
          intro hEq
          subst hEq
          have hmr : r1 ∈ rest.map Prod.fst :=
            List.mem_map.mpr ⟨(r1, rc), hmem2, rfl⟩
          exact hnd2.1 hmr
        unfold Engine.mergeDirGo
        apply ih (Engine.mergeDirStep H ext lp bs st r1 c1) rel rc lc hmem2
          hnd2.2
        · rw [mergeDirStep_tree_lookup_ne H ext lp bs st r1 c1
            (pathJoin lp rel)
            (fun hEq => hr1ne (pathJoin_right_inj lp r1 rel h1 h2 hEq.symm))]
          exact hlook
        · exact hne
        · exact hbs

/-- Claim C10: after a successful directory sync with a non-trivial
`local_path`, the snapshot keys every saved file by the DESTINATION path
(`local_path` joined with the source-relative path) — never equal to the bare
relative path — while the next Merge's per-file base lookup uses the bare
relative path.  Consequently (when, as in any ordinary layout, no walked
relative path coincides with a destination-joined key) no snapshot entry is
ever found as a base, and every non-excluded file whose existing local bytes
differ from remote is reported as a no-base conflict. -/
theorem claim_C10_snapshot_key_mismatch (H : Bytes → String)
    (ext : Bytes → Bytes → Bytes → Merge.MergeResult) (localPath : String)
    (excludes : List String) (prevTree remoteTree : List (String × Bytes))
    (lt : FileMap) (h1 : localPath ≠ "") (h2 : localPath ≠ ".")
    (hkeys : ∀ p ∈ remoteTree, ∀ q ∈ prevTree, p.1 ≠ pathJoin localPath q.1)
    (hnd : (remoteTree.map Prod.fst).Nodup) :
    (∀ q ∈ prevTree, Engine.shouldExclude q.1 excludes = false →
      (pathJoin localPath q.1, q.2) ∈
        Engine.readRemoteFiles localPath excludes prevTree ∧
      pathJoin localPath q.1 ≠ q.1) ∧
    (∀ p ∈ remoteTree,
      (Engine.readRemoteFiles localPath excludes prevTree).lookup p.1 =
        none) ∧
    (∀ p ∈ remoteTree, Engine.shouldExclude p.1 excludes = false →
      ∀ lc, lt.lookup (pathJoin localPath p.1) = some lc → lc ≠ p.2 →
        p.1 ∈ (Engine.mergeDirectory H ext localPath excludes remoteTree lt
          (Engine.readRemoteFiles localPath excludes prevTree)).conflicts) := by
  have hlooknone : ∀ p ∈ remoteTree,
      (Engine.readRemoteFiles localPath excludes prevTree).lookup p.1 =
        none := by
    intro p hp
    apply lookup_eq_none_of_ne
    intro pr hpr
    unfold Engine.readRemoteFiles at hpr
    rcases List.mem_map.mp hpr with ⟨q, hqf, hqEq⟩
    have hq : q ∈ prevTree := List.mem_of_mem_filter hqf
    rw [← hqEq]
    exact fun hc => hkeys p hp q hq hc.symm
  refine ⟨?_, hlooknone, ?_⟩
  · intro q hq hqex
    constructor
    · unfold Engine.readRemoteFiles
      apply List.mem_map_of_mem
      rw [List.mem_filter]
      exact ⟨hq, by simp [hqex]⟩
    · exact pathJoin_ne_self localPath q.1 h1 h2
  · intro p hp hpex lc hlook hne
    unfold Engine.mergeDirectory
    apply mergeDirGo_no_base_conflict H ext localPath _ h1 h2 _ _ p.1 p.2 lc
    · rw [List.mem_filter]
      exact ⟨hp, by simp [hpex]⟩
    · apply List.Nodup.sublist _ hnd
      exact List.Sublist.map Prod.fst (List.filter_sublist remoteTree)
    · exact hlook
    · exact hne
    · exact hlooknone p hp

/-- Witness for C10: destination prefix `dst`, one tracked file `a`; the
snapshot saved by the previous run keys it as `dst/a`, the next merge looks
up `a`, finds no base, and reports the differing file as a conflict. -/
theorem claim_C10_witness :
    (("dst/a", ([48] : Bytes)) ∈
      Engine.readRemoteFiles "dst" [] [("a", [48])]) ∧
    (Engine.readRemoteFiles "dst" [] [("a", [48])]).lookup "a" = none ∧
    "a" ∈ (Engine.mergeDirectory sampleHash extGitConflict "dst" []
      [("a", [50])] [("dst/a", [49])]
      (Engine.readRemoteFiles "dst" [] [("a", [48])])).conflicts := by
  have h := claim_C10_snapshot_key_mismatch sampleHash extGitConflict "dst"
    [] [("a", [48])] [("a", [50])] [("dst/a", [49])] (by decide) (by decide)
    (by decide) (by decide)
  refine ⟨(h.1 ("a", [48]) (by decide) (by decide)).1, h.2.1 ("a", [50])
    (by decide), h.2.2 ("a", [50]) (by decide) (by decide) [49] (by decide)
    (by decide)⟩
